import Mathlib

/-!
# Verification of the rankfit library

A shallow embedding of the core of the `rankfit` package
(`rankfit/metrics.py` and `rankfit/analyzer.py`) and proofs about it.

Modelling conventions:

* Python floats are modelled as `ℚ` (all arithmetic performed by the code on
  the inputs we consider is exact field arithmetic, plus one square root in
  Kendall's tau which is modelled over `ℝ`).
* IEEE NaN is modelled by `Option`: a value of type `Option α` is `none`
  exactly when the corresponding Python float is NaN.  This matters twice:
  `scipy.stats.kendalltau` returns `(nan, nan)` for zero-variance input, and
  `pd.qcut(..., duplicates='drop')` produces NaN bin labels when all bin
  edges coincide.
* The entry point is modelled as returning `Except String AnalysisResult`:
  `pd.DataFrame` construction with mismatched column lengths raises
  `ValueError`, and on empty input `pd.qcut`'s quantile computation raises
  an uncaught `IndexError`/`TypeError` (see `emptyInputError`).
-/

/-! ## List helpers (np.max, np.min) -/

/-- Model of `np.max` on a nonempty array; the `[]` case is junk (numpy
raises there) and is never reached by the guarded call sites. -/
def npMax : List ℚ → ℚ
  | [] => 0
  | a :: t => t.foldl max a

/-- Model of `np.min` on a nonempty array; the `[]` case is junk. -/
def npMin : List ℚ → ℚ
  | [] => 0
  | a :: t => t.foldl min a

/-! ## metrics.py -/

/-- A violation tuple `(i, i + 1, event_rates[i], event_rates[i + 1],
severity)` as built in `RankFitAnalyzer.calculate_metrics`. -/
structure Violation where
  i : ℕ
  j : ℕ
  rate_i : ℚ
  rate_j : ℚ
  severity : ℚ
deriving DecidableEq

/-- Embedding of `calculate_rankfit_v` (metrics.py, lines 9-40): returns 1.0
for fewer than two bins, 1.0 for zero range, and otherwise
`max(0, 1 - sum(severities) / total_range)`. -/
def calculate_rankfit_v (event_rates : List ℚ) (violations : List Violation) : ℚ :=
  if event_rates.length < 2 then 1
  else if npMax event_rates - npMin event_rates = 0 then 1
  else max 0 (1 - (violations.map Violation.severity).sum /
                  (npMax event_rates - npMin event_rates))

/-- Count of index pairs `i < j` of the point list satisfying `p`. -/
def countPairs (p : ℚ × ℚ → ℚ × ℚ → Bool) : List (ℚ × ℚ) → ℕ
  | [] => 0
  | a :: t => t.countP (p a) + countPairs p t

/-- Total number of pairs `n * (n - 1) / 2`, scipy's `tot`. -/
def totPairs (n : ℕ) : ℕ := n * (n - 1) / 2

/-- Concordant pairs: `(x_i - x_j) * (y_i - y_j) > 0`. -/
def concordant (pts : List (ℚ × ℚ)) : ℕ :=
  countPairs (fun a b => decide (0 < (a.1 - b.1) * (a.2 - b.2))) pts

/-- Discordant pairs: `(x_i - x_j) * (y_i - y_j) < 0`. -/
def discordant (pts : List (ℚ × ℚ)) : ℕ :=
  countPairs (fun a b => decide ((a.1 - b.1) * (a.2 - b.2) < 0)) pts

/-- Pairs tied in the first coordinate (scipy's `xtie`). -/
def xties (pts : List (ℚ × ℚ)) : ℕ :=
  countPairs (fun a b => decide (a.1 = b.1)) pts

/-- Pairs tied in the second coordinate (scipy's `ytie`). -/
def yties (pts : List (ℚ × ℚ)) : ℕ :=
  countPairs (fun a b => decide (a.2 = b.2)) pts

/-- The zero-variance test of `scipy.stats.kendalltau`: the statistic is NaN
when `xtie == tot or ytie == tot`. -/
def tauUndefined (pts : List (ℚ × ℚ)) : Bool :=
  xties pts = totPairs pts.length ∨ yties pts = totPairs pts.length

/-- Embedding of `scipy.stats.kendalltau(x, y)` (tau-b, the default
variant), restricted to the correlation component; `none` models the NaN
returned on zero variance.  scipy computes
`tau = con_minus_dis / sqrt(tot - xtie) / sqrt(tot - ytie)` where
`con_minus_dis` equals the number of concordant pairs minus the number of
discordant pairs, and then clamps: `tau = min(1., max(-1., tau))`. -/
noncomputable def kendalltau (x y : List ℚ) : Option ℝ :=
  if tauUndefined (x.zip y) then none
  else some (min 1 (max (-1)
    (((concordant (x.zip y) : ℝ) - (discordant (x.zip y) : ℝ)) /
      Real.sqrt ((totPairs (x.zip y).length : ℝ) - (xties (x.zip y) : ℝ)) /
      Real.sqrt ((totPairs (x.zip y).length : ℝ) - (yties (x.zip y) : ℝ)))))

/-- The `bin_indices = -np.arange(len(event_rates))` sequence. -/
def binIndices (k : ℕ) : List ℚ := (List.range k).map (fun i => -(i : ℚ))

/-- Embedding of `calculate_rankfit_t` (metrics.py, lines 43-71).  Note that
the guard in the source is `return rankfit_t if tau is not None else 0.5`;
scipy returns the float NaN (never `None`) for an undefined correlation, so
the `else 0.5` branch is unreachable and NaN propagates through
`(tau + 1) / 2`.  Accordingly the embedding maps over the option. -/
noncomputable def calculate_rankfit_t (event_rates : List ℚ) : Option ℝ :=
  if event_rates.length < 2 then some 1
  else (kendalltau (binIndices event_rates.length) event_rates).map
        (fun tau => (tau + 1) / 2)

/-! ## analyzer.py: segmentation -/

/-- Quantile probabilities `np.linspace(0, 1, q + 1)`.  For `q = 0`
numpy produces the single point `0.0`; Lean's convention `j / 0 = 0`
makes the uniform formula agree with that case. -/
def probs (q : ℕ) : List ℚ := (List.range (q + 1)).map (fun j => (j : ℚ) / (q : ℚ))

/-- Linear-interpolation quantile of a sorted list `s`, numpy's default
interpolation: the value at fractional position `p * (len - 1)`.  For an
empty list the value is junk and never used (no row gets labelled). -/
def quantile (s : List ℚ) (p : ℚ) : ℚ :=
  (s.getD (Int.floor (p * ((s.length : ℚ) - 1))).toNat 0) +
    (p * ((s.length : ℚ) - 1) - ((Int.floor (p * ((s.length : ℚ) - 1))).toNat : ℚ)) *
      (s.getD ((Int.floor (p * ((s.length : ℚ) - 1))).toNat + 1)
        (s.getD (Int.floor (p * ((s.length : ℚ) - 1))).toNat 0) -
       s.getD (Int.floor (p * ((s.length : ℚ) - 1))).toNat 0)

/-- First-occurrence deduplication, the behaviour of `pandas.unique`
(`seen` accumulates the values already emitted). -/
def pdUniqueAux : List ℚ → List ℚ → List ℚ
  | _, [] => []
  | seen, a :: t => if a ∈ seen then pdUniqueAux seen t else a :: pdUniqueAux (a :: seen) t

/-- First-occurrence deduplication of a list, modelling `pandas.unique`. -/
def pdUnique (l : List ℚ) : List ℚ := pdUniqueAux [] l

/-- The scores sorted ascending (quantiles are order statistics). -/
def sortedScores (scores : List ℚ) : List ℚ := List.insertionSort (· ≤ ·) scores

/-- The raw quantile bin edges `x.quantile(np.linspace(0, 1, q + 1))`. -/
def rawEdges (scores : List ℚ) (q : ℕ) : List ℚ :=
  (probs q).map (quantile (sortedScores scores))

/-- The edges actually used by `pd.qcut(..., duplicates='drop')`:
`_bins_to_cuts` replaces the edges by their unique values when duplicates
exist, except when there are exactly 2 edges. -/
def binEdges (scores : List ℚ) (q : ℕ) : List ℚ :=
  if (pdUnique (rawEdges scores q)).length < (rawEdges scores q).length ∧
      (rawEdges scores q).length ≠ 2
  then pdUnique (rawEdges scores q) else rawEdges scores q

/-- The id assigned by `_bins_to_cuts`: `bins.searchsorted(x, side='left')`
(the number of edges strictly below `x`, the edges being ascending),
followed by the `include_lowest` correction `ids[x == bins[0]] = 1`. -/
def searchIds (bins : List ℚ) (x : ℚ) : ℕ :=
  if x = bins.headD 0 then 1 else bins.countP (fun e => decide (e < x))

/-- The bin label `pd.qcut(scores, q, labels=False, duplicates='drop')`
assigns to the value `x`: `ids - 1`, or NaN (`none`) when the NA mask
`(ids == len(bins)) | (ids == 0)` fires. -/
def qcutLabel (scores : List ℚ) (q : ℕ) (x : ℚ) : Option ℕ :=
  if searchIds (binEdges scores q) x = (binEdges scores q).length ∨
      searchIds (binEdges scores q) x = 0
  then none else some (searchIds (binEdges scores q) x - 1)

/-- The whole `bin` column produced by `pd.qcut` on the score column.
With `duplicates='drop'` and numeric data, `pd.qcut` has no raising code
path (duplicate edges are dropped instead), so the `except ValueError`
fallback to `pd.cut` in `calculate_metrics` never executes; the column is
always this one. -/
def qcutLabels (scores : List ℚ) (q : ℕ) : List (Option ℕ) :=
  scores.map (qcutLabel scores q)

/-- The equal-width edges computed by `pd.cut(x, bins=n)` (the
`except`-branch fallback): `np.linspace(mn, mx, n + 1)` over the score
range, widened by 0.1% when the range is degenerate, and with the lowest
edge lowered by `(mx - mn) * 0.001` otherwise. -/
def cutEdges (scores : List ℚ) (n : ℕ) : List ℚ :=
  if npMin scores = npMax scores then
    (List.range (n + 1)).map (fun j =>
      (npMin scores - (if npMin scores = 0 then 1/1000 else |npMin scores| / 1000)) +
        ((npMax scores + (if npMax scores = 0 then 1/1000 else |npMax scores| / 1000)) -
          (npMin scores - (if npMin scores = 0 then 1/1000 else |npMin scores| / 1000))) *
          (j : ℚ) / (n : ℚ))
  else
    (List.range (n + 1)).map (fun j =>
      if j = 0 then npMin scores - (npMax scores - npMin scores) / 1000
      else npMin scores + (npMax scores - npMin scores) * (j : ℚ) / (n : ℚ))

/-- The bin label `pd.cut(scores, bins=n, labels=False, include_lowest=True)`
assigns to the value `x` (same `_bins_to_cuts` core as `qcutLabel`). -/
def cutLabel (scores : List ℚ) (n : ℕ) (x : ℚ) : Option ℕ :=
  if searchIds (cutEdges scores n) x = (cutEdges scores n).length ∨
      searchIds (cutEdges scores n) x = 0
  then none else some (searchIds (cutEdges scores n) x - 1)

/-- The `bin` column that the dead `except`-branch would produce. -/
def cutLabels (scores : List ℚ) (n : ℕ) : List (Option ℕ) :=
  scores.map (cutLabel scores n)

/-- Maximum of the present values of an option list: `Series.max()` with
its default `skipna=True`; `none` when every entry is NaN. -/
def maxOfSomes : List (Option ℕ) → Option ℕ
  | [] => none
  | none :: t => maxOfSomes t
  | some a :: t =>
    match maxOfSomes t with
    | none => some a
    | some b => some (max a b)

/-- The reorientation `df['bin'] = df['bin'].max() - df['bin']`: NaN labels
stay NaN, and when every label is NaN the maximum itself is NaN and the
whole column stays NaN. -/
def reorient (labels : List (Option ℕ)) : List (Option ℕ) :=
  match maxOfSomes labels with
  | none => labels.map (fun _ => none)
  | some M => labels.map (Option.map (fun b => M - b))

/-- The reoriented `bin` column of the analysis. -/
def rowLabels (scores : List ℚ) (n_bins : ℕ) : List (Option ℕ) :=
  reorient (qcutLabels scores n_bins)

/-- The reoriented bin label of a single row as a function of its score:
`rowLabels scores n_bins` equals `scores.map (segLabel scores n_bins)`
(every row with the same score gets the same label, and the reorientation
subtracts the raw label from the column-wide maximum). -/
def segLabel (scores : List ℚ) (q : ℕ) (x : ℚ) : Option ℕ :=
  match maxOfSomes (qcutLabels scores q) with
  | none => none
  | some M => (qcutLabel scores q x).map (fun b => M - b)

/-- One row of the working DataFrame: `(score, actual, bin)`. -/
def rowScore (r : ℚ × ℚ × Option ℕ) : ℚ := r.1

/-- The `actual` column entry of a row. -/
def rowOutcome (r : ℚ × ℚ × Option ℕ) : ℚ := r.2.1

/-- The `bin` column entry of a row. -/
def rowLabel (r : ℚ × ℚ × Option ℕ) : Option ℕ := r.2.2

/-- The working DataFrame of `calculate_metrics` after the binning step. -/
def rowsOf (y_scores y_true : List ℚ) (n_bins : ℕ) : List (ℚ × ℚ × Option ℕ) :=
  y_scores.zip (y_true.zip (rowLabels y_scores n_bins))

/-- One row of the aggregated `bin_stats` frame. -/
structure SegStats where
  bin : ℕ
  actual_mean : ℚ
  actual_count : ℕ
  score_mean : ℚ
deriving DecidableEq

/-- The distinct bin labels present among the rows, ascending: pandas
`groupby` sorts its keys and drops the NaN group. -/
def groupKeys (rows : List (ℚ × ℚ × Option ℕ)) : List ℕ :=
  (List.range ((rows.filterMap rowLabel).foldl max 0 + 1)).filter
    (fun k => (rows.filterMap rowLabel).contains k)

/-- The rows of one group. -/
def segRows (rows : List (ℚ × ℚ × Option ℕ)) (k : ℕ) : List (ℚ × ℚ × Option ℕ) :=
  rows.filter (fun r => rowLabel r == some k)

/-- The `groupby('bin').agg(...)` step: per present bin, mean outcome,
count and mean score, in ascending bin order. -/
def groupRows (rows : List (ℚ × ℚ × Option ℕ)) : List SegStats :=
  (groupKeys rows).map (fun k =>
    { bin := k
      actual_mean := ((segRows rows k).map rowOutcome).sum / ((segRows rows k).length : ℚ)
      actual_count := (segRows rows k).length
      score_mean := ((segRows rows k).map rowScore).sum / ((segRows rows k).length : ℚ) })

/-- The `bin_stats` frame of the analysis. -/
def binStatsOf (y_scores y_true : List ℚ) (n_bins : ℕ) : List SegStats :=
  groupRows (rowsOf y_scores y_true n_bins)

/-- The `event_rates = bin_stats['actual_mean'].values` sequence. -/
def eventRatesOf (y_scores y_true : List ℚ) (n_bins : ℕ) : List ℚ :=
  (binStatsOf y_scores y_true n_bins).map SegStats.actual_mean

/-- The violation-detection loop of `calculate_metrics` (analyzer.py,
lines 90-95): for each `i` in `range(len(event_rates) - 1)`, record
`(i, i + 1, rates[i], rates[i + 1], rates[i + 1] - rates[i])` whenever
`event_rates[i + 1] > event_rates[i]`. -/
def detectViolations (event_rates : List ℚ) : List Violation :=
  (List.range (event_rates.length - 1)).filterMap (fun i =>
    if event_rates.getD i 0 < event_rates.getD (i + 1) 0 then
      some ⟨i, i + 1, event_rates.getD i 0, event_rates.getD (i + 1) 0,
            event_rates.getD (i + 1) 0 - event_rates.getD i 0⟩
    else none)

/-- The violation tuple recorded for the adjacent pair `(i, i + 1)`. -/
def violationAt (rates : List ℚ) (i : ℕ) : Violation :=
  ⟨i, i + 1, rates.getD i 0, rates.getD (i + 1) 0,
    rates.getD (i + 1) 0 - rates.getD i 0⟩

/-- The result dictionary of `calculate_metrics`, minus its `rankfit_t`
entry, which lives in `ℝ` and is modelled separately by
`calculate_metrics_rankfit_t` so that the rest stays computable. -/
structure AnalysisResult where
  bin_stats : List SegStats
  rankfit_v : ℚ
  violations : List Violation
deriving DecidableEq

/-- The message of the `ValueError` pandas raises when `pd.DataFrame` is
given columns of different lengths. -/
def lengthMismatchError : String := "ValueError: All arrays must be of the same length"

/-- The error surfaced on empty input: from pandas 1.3 on (setup.py pins
`pandas>=1.3.0`), `pd.qcut` computes `np.quantile` over the NaN-filtered
score column, which on an empty column raises `IndexError` (`TypeError` on
some pandas 2.x builds) — not a `ValueError`, so the `except ValueError`
branch does not catch it; and even if the fallback were reached, `pd.cut` on
an empty array raises `ValueError("Cannot cut empty array")` inside the
`except` block, which nothing catches.  Either way the call fails; the
model folds these into one error value. -/
def emptyInputError : String := "IndexError: cannot do a non-empty take from an empty axes"

/-- Embedding of `RankFitAnalyzer.calculate_metrics` (analyzer.py, lines
45-106).  No input validation of any kind is performed by the source; the
failing steps are the DataFrame construction (mismatched column lengths
raise `ValueError`, checked first because the constructor runs before the
binning) and, for empty input, the uncaught exception out of `pd.qcut`
(see `emptyInputError`).  Every other input produces a full result. -/
def calculate_metrics (y_scores y_true : List ℚ) (n_bins : ℕ) :
    Except String AnalysisResult :=
  if y_scores.length ≠ y_true.length then Except.error lengthMismatchError
  else if y_scores.isEmpty then Except.error emptyInputError
  else Except.ok
    { bin_stats := binStatsOf y_scores y_true n_bins
      rankfit_v := calculate_rankfit_v (eventRatesOf y_scores y_true n_bins)
                     (detectViolations (eventRatesOf y_scores y_true n_bins))
      violations := detectViolations (eventRatesOf y_scores y_true n_bins) }

/-- The `rankfit_t` entry of the result dictionary of `calculate_metrics`
(see `AnalysisResult`); meaningful when `calculate_metrics` succeeds, i.e.
on nonempty inputs of matching lengths. -/
noncomputable def calculate_metrics_rankfit_t (y_scores y_true : List ℚ) (n_bins : ℕ) :
    Option ℝ :=
  calculate_rankfit_t (eventRatesOf y_scores y_true n_bins)

/-! ## Small evaluation lemmas -/

/-- Reduction helper for concrete interpolation indices. -/
theorem intToNat_two : Int.toNat 2 = 2 := rfl

/-- Reduction helper for concrete interpolation indices. -/
theorem intToNat_three : Int.toNat 3 = 3 := rfl

/-! ## Lemmas about npMax and npMin -/

theorem le_foldl_max (a : ℚ) (l : List ℚ) : a ≤ l.foldl max a := by
  induction l generalizing a with
  | nil => exact le_refl a
  | cons b t ih => exact le_trans (le_max_left a b) (ih (max a b))

theorem mem_le_foldl_max {b : ℚ} {l : List ℚ} (a : ℚ) (h : b ∈ l) : b ≤ l.foldl max a := by
  induction l generalizing a with
  | nil => cases h
  | cons c t ih =>
    rcases List.mem_cons.mp h with rfl | hb
    · exact le_trans (le_max_right a b) (le_foldl_max (max a b) t)
    · exact ih (max a c) hb

theorem le_npMax_of_mem {a : ℚ} {l : List ℚ} (h : a ∈ l) : a ≤ npMax l := by
  cases l with
  | nil => cases h
  | cons b t =>
    rcases List.mem_cons.mp h with rfl | ha
    · exact le_foldl_max a t
    · exact mem_le_foldl_max b ha

theorem foldl_min_le (a : ℚ) (l : List ℚ) : l.foldl min a ≤ a := by
  induction l generalizing a with
  | nil => exact le_refl a
  | cons b t ih => exact le_trans (ih (min a b)) (min_le_left a b)

theorem foldl_min_le_mem {b : ℚ} {l : List ℚ} (a : ℚ) (h : b ∈ l) : l.foldl min a ≤ b := by
  induction l generalizing a with
  | nil => cases h
  | cons c t ih =>
    rcases List.mem_cons.mp h with rfl | hb
    · exact le_trans (foldl_min_le (min a b) t) (min_le_right a b)
    · exact ih (min a c) hb

theorem npMin_le_of_mem {a : ℚ} {l : List ℚ} (h : a ∈ l) : npMin l ≤ a := by
  cases l with
  | nil => cases h
  | cons b t =>
    rcases List.mem_cons.mp h with rfl | ha
    · exact foldl_min_le a t
    · exact foldl_min_le_mem b ha

theorem npMin_le_npMax {l : List ℚ} (h : l ≠ []) : npMin l ≤ npMax l := by
  cases l with
  | nil => exact absurd rfl h
  | cons b t =>
    exact le_trans (npMin_le_of_mem (List.mem_cons_self b t))
      (le_npMax_of_mem (List.mem_cons_self b t))

/-! ## Lemmas about violation detection -/

theorem mem_detectViolations {rates : List ℚ} {v : Violation} :
    v ∈ detectViolations rates ↔
      ∃ i, i + 1 < rates.length ∧ rates.getD i 0 < rates.getD (i + 1) 0 ∧
        v = violationAt rates i := by
  unfold detectViolations
  rw [List.mem_filterMap]
  constructor
  · rintro ⟨i, hi, hv⟩
    rw [List.mem_range] at hi
    by_cases hc : rates.getD i 0 < rates.getD (i + 1) 0
    · rw [if_pos hc] at hv
      exact ⟨i, by omega, hc, (Option.some_inj.mp hv).symm⟩
    · rw [if_neg hc] at hv
      cases hv
  · rintro ⟨i, hi, hc, rfl⟩
    exact ⟨i, List.mem_range.mpr (by omega), by rw [if_pos hc]; rfl⟩

theorem detectViolations_severity_pos {rates : List ℚ} {v : Violation}
    (h : v ∈ detectViolations rates) : 0 < v.severity := by
  rcases mem_detectViolations.mp h with ⟨i, -, hc, rfl⟩
  simpa [violationAt] using hc

theorem severity_sum_nonneg {viols : List Violation}
    (h : ∀ v ∈ viols, 0 ≤ v.severity) : 0 ≤ (viols.map Violation.severity).sum := by
  apply List.sum_nonneg
  intro x hx
  rcases List.mem_map.mp hx with ⟨v, hv, rfl⟩
  exact h v hv

theorem detectViolations_pairwise (rates : List ℚ) :
    (detectViolations rates).Pairwise (fun a b => a.i < b.i) := by
  unfold detectViolations
  apply List.Pairwise.filterMap
  · intro a b hab v hv w hw
    have hv2 : v.i = a := by
      by_cases hc : rates.getD a 0 < rates.getD (a + 1) 0
      · rw [if_pos hc] at hv; cases hv; rfl
      · rw [if_neg hc] at hv; cases hv
    have hw2 : w.i = b := by
      by_cases hc : rates.getD b 0 < rates.getD (b + 1) 0
      · rw [if_pos hc] at hw; cases hw; rfl
      · rw [if_neg hc] at hw; cases hw
    rw [hv2, hw2]; exact hab
  · exact List.pairwise_lt_range _

/-! ## Bounds for the two scores -/

theorem calculate_rankfit_v_bounds {rates : List ℚ} {viols : List Violation}
    (h : ∀ v ∈ viols, 0 ≤ v.severity) :
    0 ≤ calculate_rankfit_v rates viols ∧ calculate_rankfit_v rates viols ≤ 1 := by
  unfold calculate_rankfit_v
  split_ifs with h1 h2
  · exact ⟨zero_le_one, le_refl 1⟩
  · exact ⟨zero_le_one, le_refl 1⟩
  · constructor
    · exact le_max_left 0 _
    · apply max_le zero_le_one
      have hne : rates ≠ [] := by
        intro hnil; rw [hnil] at h1; simp at h1
      have hle : npMin rates ≤ npMax rates := npMin_le_npMax hne
      have hpos : 0 < npMax rates - npMin rates := by
        rcases lt_or_eq_of_le hle with hlt | heq
        · linarith
        · exact absurd (by linarith) h2
      have hnum : 0 ≤ (viols.map Violation.severity).sum := severity_sum_nonneg h
      have : 0 ≤ (viols.map Violation.severity).sum / (npMax rates - npMin rates) :=
        div_nonneg hnum (le_of_lt hpos)
      linarith

theorem calculate_rankfit_t_bounds {rates : List ℚ} {t : ℝ}
    (h : calculate_rankfit_t rates = some t) : 0 ≤ t ∧ t ≤ 1 := by
  unfold calculate_rankfit_t at h
  split_ifs at h with h1
  · rw [Option.some_inj] at h
    rw [← h]; norm_num
  · unfold kendalltau at h
    split_ifs at h with h2
    · cases h
    · rw [Option.map_some', Option.some_inj] at h
      set r : ℝ := ((concordant ((binIndices rates.length).zip rates) : ℝ) -
        (discordant ((binIndices rates.length).zip rates) : ℝ)) /
          Real.sqrt ((totPairs ((binIndices rates.length).zip rates).length : ℝ) -
            (xties ((binIndices rates.length).zip rates) : ℝ)) /
          Real.sqrt ((totPairs ((binIndices rates.length).zip rates).length : ℝ) -
            (yties ((binIndices rates.length).zip rates) : ℝ)) with hr
      have hub : min 1 (max (-1) r) ≤ 1 := min_le_left _ _
      have hlb : (-1 : ℝ) ≤ min 1 (max (-1) r) :=
        le_min (by norm_num) (le_max_left _ _)
      constructor
      · rw [← h]; linarith
      · rw [← h]; linarith

/-! ## Shared concrete evaluations -/

theorem eventRates_two_segments_constant : eventRatesOf [1, 2] [1, 1] 2 = [1, 1] := by
  have h : List.range 3 = [0, 1, 2] := rfl
  have h1 : List.range 2 = [0, 1] := rfl
  norm_num [eventRatesOf, binStatsOf, groupRows, groupKeys, segRows, rowsOf, rowLabel,
    rowOutcome, rowLabels, reorient, maxOfSomes, qcutLabels, qcutLabel, searchIds, binEdges,
    rawEdges, probs, h, h1, sortedScores, List.insertionSort, List.orderedInsert,
    quantile, intToNat_two, List.getD, List.getElem?_cons_zero,
    List.getElem?_cons_succ, List.getElem?_nil, Option.getD_some, Option.getD_none,
    pdUnique, pdUniqueAux, List.countP, List.countP.go, List.headD, List.head?,
    List.zip, List.zipWith, List.filterMap, List.foldl]

theorem rankfit_t_constant_pair : calculate_rankfit_t [1, 1] = none := by
  have h1 : List.range 2 = [0, 1] := rfl
  norm_num [calculate_rankfit_t, kendalltau, tauUndefined, binIndices, h1, xties, yties,
    totPairs, countPairs, List.zip, List.zipWith, List.countP, List.countP.go]

theorem binStats_constant_scores : binStatsOf [1, 1, 1] [0, 1, 0] 2 = [] := by
  have h : List.range 3 = [0, 1, 2] := rfl
  have h1 : List.range 1 = [0] := rfl
  norm_num [binStatsOf, groupRows, groupKeys, segRows, rowsOf, rowLabel, rowLabels, reorient,
    maxOfSomes, qcutLabels, qcutLabel, searchIds, binEdges,
    rawEdges, probs, h, h1, sortedScores, List.insertionSort, List.orderedInsert,
    quantile, intToNat_two, List.getD, List.getElem?_cons_zero,
    List.getElem?_cons_succ, List.getElem?_nil, Option.getD_some, Option.getD_none,
    pdUnique, pdUniqueAux, List.countP, List.countP.go, List.headD, List.head?,
    List.zip, List.zipWith, List.filterMap, List.foldl]

/-! ## Claim C1 -/

/-- C1 (code bug): on a constant event-rate sequence with at least two
segments the claim expects `rankfit_t = 0.5`; the code instead produces NaN,
because scipy returns NaN (not `None`) and the guard `tau is not None` never
selects the neutral value.  Concretely, scores `[1, 2]` with outcomes
`[1, 1]` and 2 bins give the constant rate sequence `[1, 1]`, on which
`calculate_rankfit_t` is NaN (`none`); `rankfit_v` is 1 as the claim says. -/
theorem c1_constant_rates_rankfit_t_is_nan :
    eventRatesOf [1, 2] [1, 1] 2 = [1, 1] ∧
    calculate_rankfit_t [1, 1] = none ∧
    calculate_metrics_rankfit_t [1, 2] [1, 1] 2 = none ∧
    calculate_rankfit_v [1, 1] (detectViolations [1, 1]) = 1 := by
  refine ⟨eventRates_two_segments_constant, rankfit_t_constant_pair, ?_, ?_⟩
  · unfold calculate_metrics_rankfit_t
    rw [eventRates_two_segments_constant, rankfit_t_constant_pair]
  · norm_num [calculate_rankfit_v, detectViolations, npMax, npMin, List.foldl]

/-! ## Claim C2 -/

/-- C2 (counterexample): a non-binary outcome value (here `2`) does not
fail: the call returns a complete normal result. -/
theorem c2_no_validation_counterexample :
    calculate_metrics [1, 2] [0, 2] 2 =
      Except.ok { bin_stats := [⟨0, 2, 1, 2⟩, ⟨1, 0, 1, 1⟩],
                  rankfit_v := 1, violations := [] } := by
  have h : List.range 3 = [0, 1, 2] := rfl
  have h1 : List.range 2 = [0, 1] := rfl
  norm_num [calculate_metrics, List.isEmpty, eventRatesOf, detectViolations,
    calculate_rankfit_v, npMax, npMin,
    binStatsOf, groupRows, groupKeys, segRows, rowsOf, rowLabel, rowOutcome, rowScore,
    rowLabels, reorient, maxOfSomes, qcutLabels, qcutLabel, searchIds, binEdges,
    rawEdges, probs, h, h1, sortedScores, List.insertionSort, List.orderedInsert,
    quantile, intToNat_two, List.getD, List.getElem?_cons_zero,
    List.getElem?_cons_succ, List.getElem?_nil, Option.getD_some, Option.getD_none,
    pdUnique, pdUniqueAux, List.countP, List.countP.go, List.headD, List.head?,
    List.zip, List.zipWith, List.filterMap, List.foldl]

/-- C2 (amended): `calculate_metrics` performs no input validation of its
own and never raises anything resembling `InvalidInput` (no such error
exists in the code).  Mismatched lengths fail with the pandas `ValueError`
from the DataFrame constructor, and empty input fails with the uncaught
exception out of `pd.qcut` (an `IndexError`/`TypeError`, which the
`except ValueError` does not catch) — library errors, not `InvalidInput` —
while a non-binary outcome value and `n_bins = 0` are silently accepted and
return a complete normal result. -/
theorem c2_no_invalid_input_error :
    (∀ (y_scores y_true : List ℚ) (n_bins : ℕ), y_scores.length ≠ y_true.length →
      calculate_metrics y_scores y_true n_bins = Except.error lengthMismatchError) ∧
    (∀ n_bins : ℕ, calculate_metrics [] [] n_bins = Except.error emptyInputError) ∧
    (calculate_metrics [1, 2] [0, 2] 2).isOk = true ∧
    (calculate_metrics [1, 2] [0, 1] 0).isOk = true := by
  refine ⟨?_, ?_, ?_, ?_⟩
  · intro y_scores y_true n_bins hlen
    unfold calculate_metrics
    rw [if_pos hlen]
  · intro n_bins
    rfl
  · norm_num [calculate_metrics, List.isEmpty, Except.isOk, Except.toBool]
  · norm_num [calculate_metrics, List.isEmpty, Except.isOk, Except.toBool]

/-- Witness for `c2_no_invalid_input_error` at a concrete mismatched
input. -/
theorem c2_no_invalid_input_error_witness :
    calculate_metrics [1] [] 3 = Except.error lengthMismatchError :=
  c2_no_invalid_input_error.1 [1] [] 3 (by decide)

/-! ## Claim C3 -/

/-- C3 (counterexample): the valid input `[1, 2]` / `[1, 1]` with 2 bins
(equal lengths, binary outcomes, `n_bins ≥ 1`) has a NaN `rankfit_t`, which
does not lie in `[0, 1]`. -/
theorem c3_rankfit_t_nan_counterexample :
    calculate_metrics_rankfit_t [1, 2] [1, 1] 2 = none ∧
    ([1, 2] : List ℚ).length = ([1, 1] : List ℚ).length := by
  refine ⟨?_, rfl⟩
  unfold calculate_metrics_rankfit_t
  rw [eventRates_two_segments_constant, rankfit_t_constant_pair]

/-- C3 (amended): for every valid input, `rankfit_v` lies in `[0, 1]`, and
`rankfit_t` lies in `[0, 1]` whenever it is not NaN (scipy clamps tau to
`[-1, 1]` before the affine transform). -/
theorem c3_scores_bounded (y_scores y_true : List ℚ) (n_bins : ℕ)
    (hlen : y_scores.length = y_true.length) (hne : y_scores ≠ [])
    (hout : ∀ a ∈ y_true, a = 0 ∨ a = 1) (hn : 1 ≤ n_bins) :
    (0 ≤ calculate_rankfit_v (eventRatesOf y_scores y_true n_bins)
        (detectViolations (eventRatesOf y_scores y_true n_bins)) ∧
      calculate_rankfit_v (eventRatesOf y_scores y_true n_bins)
        (detectViolations (eventRatesOf y_scores y_true n_bins)) ≤ 1) ∧
    (∀ t : ℝ, calculate_metrics_rankfit_t y_scores y_true n_bins = some t →
      0 ≤ t ∧ t ≤ 1) := by
  constructor
  · exact calculate_rankfit_v_bounds
      (fun v hv => le_of_lt (detectViolations_severity_pos hv))
  · intro t ht
    exact calculate_rankfit_t_bounds ht

/-- Witness for `c3_scores_bounded` at a concrete valid input. -/
theorem c3_scores_bounded_witness :
    (0 ≤ calculate_rankfit_v (eventRatesOf [1, 2] [0, 1] 2)
        (detectViolations (eventRatesOf [1, 2] [0, 1] 2)) ∧
      calculate_rankfit_v (eventRatesOf [1, 2] [0, 1] 2)
        (detectViolations (eventRatesOf [1, 2] [0, 1] 2)) ≤ 1) ∧
    (∀ t : ℝ, calculate_metrics_rankfit_t [1, 2] [0, 1] 2 = some t →
      0 ≤ t ∧ t ≤ 1) :=
  c3_scores_bounded [1, 2] [0, 1] 2 rfl (by simp)
    (by intro a ha; fin_cases ha
        · exact Or.inl rfl
        · exact Or.inr rfl)
    (by decide)

/-! ## Claim C4 -/

/-- C4: with at least two segments and nonzero range, `calculate_rankfit_v`
equals `max(0, 1 - sum(severities) / (max - min))`; on the segment rates
`[0.2, 0.5, 0.3, 0.1]` the detected violations are exactly
`[(0, 1, 0.2, 0.5, 0.3)]` and the score is `0.25`. -/
theorem c4_rankfit_v_formula :
    (∀ (rates : List ℚ) (viols : List Violation), 2 ≤ rates.length →
      npMax rates - npMin rates ≠ 0 →
      calculate_rankfit_v rates viols =
        max 0 (1 - (viols.map Violation.severity).sum / (npMax rates - npMin rates))) ∧
    detectViolations [1/5, 1/2, 3/10, 1/10] = [⟨0, 1, 1/5, 1/2, 3/10⟩] ∧
    calculate_rankfit_v [1/5, 1/2, 3/10, 1/10]
      (detectViolations [1/5, 1/2, 3/10, 1/10]) = 1/4 := by
  refine ⟨?_, ?_, ?_⟩
  · intro rates viols h2 hr
    unfold calculate_rankfit_v
    rw [if_neg (by omega), if_neg hr]
  · have h : List.range 3 = [0, 1, 2] := rfl
    norm_num [detectViolations, h, List.filterMap, List.getD, List.getElem?_cons_zero,
      List.getElem?_cons_succ, List.getElem?_nil, Option.getD_some, Option.getD_none]
  · have h : List.range 3 = [0, 1, 2] := rfl
    norm_num [detectViolations, h, List.filterMap, List.getD, List.getElem?_cons_zero,
      List.getElem?_cons_succ, List.getElem?_nil, Option.getD_some, Option.getD_none,
      calculate_rankfit_v, npMax, npMin, List.foldl]

/-- Witness for the quantified part of `c4_rankfit_v_formula` at a concrete
input. -/
theorem c4_rankfit_v_formula_witness :
    calculate_rankfit_v [0, 1] [] =
      max 0 (1 - ((([] : List Violation)).map Violation.severity).sum /
        (npMax [0, 1] - npMin [0, 1])) :=
  c4_rankfit_v_formula.1 [0, 1] [] (by decide)
    (by norm_num [npMax, npMin, List.foldl])

/-! ## Claim C5 -/

/-- C5: the detection loop records, for every adjacent pair `(i, i + 1)`, a
violation exactly when `rates[i + 1] > rates[i]` (no tolerance), carrying
both rates and the positive severity `rates[i + 1] - rates[i]`, and the
resulting list is in ascending segment-index order. -/
theorem c5_violation_detection (rates : List ℚ) :
    (∀ i, i + 1 < rates.length →
      (rates.getD i 0 < rates.getD (i + 1) 0 ↔
        violationAt rates i ∈ detectViolations rates)) ∧
    (∀ v ∈ detectViolations rates,
      v.j = v.i + 1 ∧ v.i + 1 < rates.length ∧
      v.rate_i = rates.getD v.i 0 ∧ v.rate_j = rates.getD (v.i + 1) 0 ∧
      v.severity = v.rate_j - v.rate_i ∧ 0 < v.severity) ∧
    (detectViolations rates).Pairwise (fun a b => a.i < b.i) := by
  refine ⟨?_, ?_, detectViolations_pairwise rates⟩
  · intro i hi
    constructor
    · intro hc
      exact mem_detectViolations.mpr ⟨i, hi, hc, rfl⟩
    · intro hmem
      rcases mem_detectViolations.mp hmem with ⟨i2, hi2, hc2, heq⟩
      have : i = i2 := by
        have := congrArg Violation.i heq
        simpa [violationAt] using this
      rw [this]; exact hc2
  · intro v hv
    rcases mem_detectViolations.mp hv with ⟨i, hi, hc, rfl⟩
    refine ⟨rfl, hi, rfl, rfl, ?_, ?_⟩
    · simp [violationAt]
    · simpa [violationAt] using hc

/-- Witness for `c5_violation_detection` at the rates `[0, 1]`: the single
increasing adjacent pair is recorded. -/
theorem c5_violation_detection_witness :
    violationAt [0, 1] 0 ∈ detectViolations [0, 1] :=
  ((c5_violation_detection [0, 1]).1 0 (by decide)).mp
    (by norm_num [List.getD, List.getElem?_cons_zero, List.getElem?_cons_succ,
      Option.getD_some])

/-! ## Claim C10 -/

/-- C10: with at least two segments and positive range, appending one more
violation with positive severity never increases `calculate_rankfit_v`. -/
theorem c10_rankfit_v_antitone_in_violations (rates : List ℚ)
    (viols : List Violation) (v : Violation)
    (h2 : 2 ≤ rates.length) (hrange : 0 < npMax rates - npMin rates)
    (hpos : ∀ w ∈ viols, 0 < w.severity) (hv : 0 < v.severity) :
    calculate_rankfit_v rates (viols ++ [v]) ≤ calculate_rankfit_v rates viols := by
  unfold calculate_rankfit_v
  rw [if_neg (by omega), if_neg (by linarith), if_neg (by omega), if_neg (by linarith)]
  apply max_le_max (le_refl 0)
  have hsum : ((viols ++ [v]).map Violation.severity).sum
      = (viols.map Violation.severity).sum + v.severity := by
    rw [List.map_append, List.sum_append]
    simp
  rw [hsum, add_div]
  have hq : 0 ≤ v.severity / (npMax rates - npMin rates) :=
    div_nonneg (le_of_lt hv) (le_of_lt hrange)
  linarith

/-- Witness for `c10_rankfit_v_antitone_in_violations` at a concrete
input. -/
theorem c10_rankfit_v_antitone_in_violations_witness :
    calculate_rankfit_v [0, 1] ([] ++ [⟨0, 1, 0, 1, 1⟩]) ≤
      calculate_rankfit_v [0, 1] [] :=
  c10_rankfit_v_antitone_in_violations [0, 1] [] ⟨0, 1, 0, 1, 1⟩ (by decide)
    (by norm_num [npMax, npMin, List.foldl])
    (by intro w hw; cases hw) (by norm_num)

/-! ## Claim C6 -/

/-- C6 (code bug): for the all-identical scores `[1, 1, 1]` with 2 bins, the
segmentation does not partition the input: `pd.qcut(..., duplicates='drop')`
collapses all edges, labels every row NaN (it does not raise, so the
fallback in the `except` branch never runs), and `groupby` drops every row;
the per-segment counts sum to 0 while the input has length 3.  The call
still returns a normal, "perfect" result. -/
theorem c6_constant_scores_drop_all_rows :
    calculate_metrics [1, 1, 1] [0, 1, 0] 2 =
      Except.ok { bin_stats := [], rankfit_v := 1, violations := [] } ∧
    ((binStatsOf [1, 1, 1] [0, 1, 0] 2).map SegStats.actual_count).sum = 0 ∧
    ([1, 1, 1] : List ℚ).length = 3 := by
  refine ⟨?_, ?_, rfl⟩
  · norm_num [calculate_metrics, List.isEmpty, eventRatesOf, binStats_constant_scores,
      detectViolations, calculate_rankfit_v]
  · rw [binStats_constant_scores]
    rfl

/-! ## Claim C8 -/

/-- C8 (code bug): on degenerate all-identical scores the claim expects an
automatic fall back to equal-width binning; in fact `pd.qcut` with
`duplicates='drop'` raises no `ValueError` there (it produces all-NaN
labels), so the `except ValueError: pd.cut(...)` fallback never executes and
every row is silently dropped, yielding zero segments — although the
equal-width binning of the fallback would have assigned every row a bin.
No error is surfaced to the caller. -/
theorem c8_fallback_never_runs :
    qcutLabels [1, 1, 1] 2 = [none, none, none] ∧
    binStatsOf [1, 1, 1] [0, 1, 0] 2 = [] ∧
    (calculate_metrics [1, 1, 1] [0, 1, 0] 2).isOk = true ∧
    (cutLabels [1, 1, 1] 2).all Option.isSome = true := by
  refine ⟨?_, binStats_constant_scores, ?_, ?_⟩
  · have h : List.range 3 = [0, 1, 2] := rfl
    norm_num [qcutLabels, qcutLabel, searchIds, binEdges, rawEdges, probs, h, sortedScores,
      List.insertionSort, List.orderedInsert,
      quantile, intToNat_two, List.getD, List.getElem?_cons_zero,
      List.getElem?_cons_succ, List.getElem?_nil, Option.getD_some, Option.getD_none,
      pdUnique, pdUniqueAux, List.countP, List.countP.go, List.headD, List.head?]
  · norm_num [calculate_metrics, List.isEmpty, Except.isOk, Except.toBool]
  · have h : List.range 3 = [0, 1, 2] := rfl
    norm_num [cutLabels, cutLabel, searchIds, cutEdges, npMax, npMin, h, List.foldl,
      List.countP, List.countP.go, List.headD, List.head?, List.all]

/-! ## Lemmas about the segmentation -/

theorem getD_mem_of_lt {l : List ℚ} {n : ℕ} (h : n < l.length) : l.getD n 0 ∈ l := by
  induction l generalizing n with
  | nil => cases h
  | cons a t ih =>
    cases n with
    | zero => simp
    | succ m =>
      simp only [List.getD_cons_succ]
      exact List.mem_cons_of_mem a (ih (by simpa using h))

theorem mem_sortedScores {x : ℚ} {l : List ℚ} : x ∈ sortedScores l ↔ x ∈ l :=
  (List.perm_insertionSort (· ≤ ·) l).mem_iff

theorem sortedScores_sorted (l : List ℚ) : (sortedScores l).Sorted (· ≤ ·) :=
  List.sorted_insertionSort (· ≤ ·) l

theorem sortedScores_length (l : List ℚ) : (sortedScores l).length = l.length :=
  (List.perm_insertionSort (· ≤ ·) l).length_eq

theorem sorted_head_le {s : List ℚ} (hs : s.Sorted (· ≤ ·)) {x : ℚ} (hx : x ∈ s) :
    s.getD 0 0 ≤ x := by
  cases s with
  | nil => cases hx
  | cons a t =>
    rcases List.mem_cons.mp hx with rfl | hxt
    · simp
    · simpa using (List.sorted_cons.mp hs).1 x hxt

theorem sorted_le_last {s : List ℚ} (hs : s.Sorted (· ≤ ·)) {x : ℚ} (hx : x ∈ s) :
    x ≤ s.getD (s.length - 1) 0 := by
  induction s with
  | nil => cases hx
  | cons a t ih =>
    rcases List.sorted_cons.mp hs with ⟨ha, ht⟩
    rcases List.mem_cons.mp hx with rfl | hxt
    · cases t with
      | nil => simp
      | cons b t2 =>
        have hl : (b :: t2).getD ((b :: t2).length - 1) 0 ∈ b :: t2 :=
          getD_mem_of_lt (by simp)
        have step : (x :: b :: t2).getD ((x :: b :: t2).length - 1) 0 =
            (b :: t2).getD ((b :: t2).length - 1) 0 := by
          simp [List.getD_cons_succ]
        rw [step]
        exact ha _ hl
    · have hne : t ≠ [] := by
        intro hnil; rw [hnil] at hxt; cases hxt
      cases t with
      | nil => exact absurd rfl hne
      | cons b t2 =>
        have step : (a :: b :: t2).getD ((a :: b :: t2).length - 1) 0 =
            (b :: t2).getD ((b :: t2).length - 1) 0 := by
          simp [List.getD_cons_succ]
        rw [step]
        exact ih ht hxt

theorem quantile_zero (s : List ℚ) : quantile s 0 = s.getD 0 0 := by
  unfold quantile
  norm_num

theorem rawEdges_ne_nil (scores : List ℚ) (q : ℕ) : rawEdges scores q ≠ [] := by
  unfold rawEdges probs
  rw [List.range_succ_eq_map]
  simp

theorem rawEdges_headD (scores : List ℚ) (q : ℕ) :
    (rawEdges scores q).headD 0 = quantile (sortedScores scores) 0 := by
  unfold rawEdges probs
  rw [List.range_succ_eq_map]
  simp

theorem pdUnique_cons (a : ℚ) (t : List ℚ) :
    pdUnique (a :: t) = a :: pdUniqueAux [a] t := by
  unfold pdUnique
  simp only [pdUniqueAux]
  simp

theorem binEdges_head (scores : List ℚ) (q : ℕ) :
    binEdges scores q ≠ [] ∧
    (binEdges scores q).headD 0 = quantile (sortedScores scores) 0 := by
  rcases hre : rawEdges scores q with _ | ⟨e, rest⟩
  · exact absurd hre (rawEdges_ne_nil scores q)
  · have he : e = quantile (sortedScores scores) 0 := by
      have := rawEdges_headD scores q
      rw [hre] at this
      simpa using this
    unfold binEdges
    rw [hre, pdUnique_cons]
    split_ifs with h
    · exact ⟨List.cons_ne_nil _ _, by simpa using he⟩
    · exact ⟨List.cons_ne_nil _ _, by simpa using he⟩

theorem binEdges_headD_le {scores : List ℚ} {q : ℕ} {x : ℚ} (hx : x ∈ scores) :
    (binEdges scores q).headD 0 ≤ x := by
  rw [(binEdges_head scores q).2, quantile_zero]
  exact sorted_head_le (sortedScores_sorted scores) (mem_sortedScores.mpr hx)

theorem searchIds_mono {bins : List ℚ} {x y : ℚ} (hne : bins ≠ [])
    (hhx : bins.headD 0 ≤ x) (hxy : x ≤ y) :
    searchIds bins x ≤ searchIds bins y := by
  unfold searchIds
  by_cases hx : x = bins.headD 0
  · rw [if_pos hx]
    by_cases hy : y = bins.headD 0
    · rw [if_pos hy]
    · rw [if_neg hy]
      cases bins with
      | nil => exact absurd rfl hne
      | cons e t =>
        have he : e < y := by
          have h1 : e ≤ y := by
            rw [hx] at hxy
            simpa using hxy
          rcases lt_or_eq_of_le h1 with hlt | heq
          · exact hlt
          · exact absurd heq.symm (by simpa using hy)
        rw [List.countP_cons]
        simp [he]
  · by_cases hy : y = bins.headD 0
    · exfalso
      apply hx
      have : x ≤ bins.headD 0 := hy ▸ hxy
      exact le_antisymm this hhx
    · rw [if_neg hx, if_neg hy]
      apply List.countP_mono_left
      intro e he hex
      rw [decide_eq_true_eq] at hex ⊢
      exact lt_of_lt_of_le hex hxy

theorem qcutLabel_some_searchIds {scores : List ℚ} {q : ℕ} {x : ℚ} {b : ℕ}
    (h : qcutLabel scores q x = some b) :
    searchIds (binEdges scores q) x = b + 1 := by
  unfold qcutLabel at h
  split_ifs at h with hna
  have hb : searchIds (binEdges scores q) x - 1 = b := Option.some_inj.mp h
  push_neg at hna
  omega

theorem qcutLabel_mono {scores : List ℚ} {q : ℕ} {x y : ℚ} {bx byy : ℕ}
    (hx : x ∈ scores) (hxy : x ≤ y)
    (hbx : qcutLabel scores q x = some bx) (hby : qcutLabel scores q y = some byy) :
    bx ≤ byy := by
  have h1 : searchIds (binEdges scores q) x = bx + 1 := qcutLabel_some_searchIds hbx
  have h2 : searchIds (binEdges scores q) y = byy + 1 := qcutLabel_some_searchIds hby
  have h3 : searchIds (binEdges scores q) x ≤ searchIds (binEdges scores q) y :=
    searchIds_mono (binEdges_head scores q).1 (binEdges_headD_le hx) hxy
  omega

/-! ## Lemmas about maxOfSomes and reorientation -/

theorem maxOfSomes_eq_none {l : List (Option ℕ)} (h : maxOfSomes l = none) :
    ∀ o ∈ l, o = none := by
  induction l with
  | nil => intro o ho; cases ho
  | cons a t ih =>
    intro o ho
    cases a with
    | none =>
      rcases List.mem_cons.mp ho with rfl | hot
      · rfl
      · exact ih (by simpa [maxOfSomes] using h) o hot
    | some c =>
      exfalso
      unfold maxOfSomes at h
      rcases hmt : maxOfSomes t with _ | b <;> rw [hmt] at h <;> cases h

theorem le_maxOfSomes {l : List (Option ℕ)} {a M : ℕ}
    (ha : some a ∈ l) (hM : maxOfSomes l = some M) : a ≤ M := by
  induction l generalizing M with
  | nil => cases ha
  | cons o t ih =>
    cases o with
    | none =>
      rcases List.mem_cons.mp ha with hhd | hat
      · cases hhd
      · exact ih hat (by simpa [maxOfSomes] using hM)
    | some c =>
      unfold maxOfSomes at hM
      rcases List.mem_cons.mp ha with hhd | hat
      · have hac : a = c := by injection hhd
        rcases hmt : maxOfSomes t with _ | b <;> rw [hmt] at hM <;>
          rw [Option.some_inj] at hM
        · omega
        · subst hM
          subst hac
          exact le_max_left a b
      · rcases hmt : maxOfSomes t with _ | b <;> rw [hmt] at hM
        · exfalso
          have := maxOfSomes_eq_none hmt (some a) hat
          cases this
        · rw [Option.some_inj] at hM
          have hb := ih hat hmt
          subst hM
          exact le_trans hb (le_max_right c b)

theorem rowLabels_eq_map_segLabel (scores : List ℚ) (q : ℕ) :
    rowLabels scores q = scores.map (segLabel scores q) := by
  unfold rowLabels reorient
  rcases hm : maxOfSomes (qcutLabels scores q) with _ | M
  · dsimp only
    unfold qcutLabels
    rw [List.map_map]
    apply List.map_congr_left
    intro x hx
    unfold segLabel
    rw [hm]
    rfl
  · dsimp only
    unfold qcutLabels
    rw [List.map_map]
    apply List.map_congr_left
    intro x hx
    unfold segLabel
    rw [hm]
    rfl

theorem label_of_mem_zip {f : ℚ → Option ℕ} :
    ∀ {l1 l2 : List ℚ} {x a : ℚ} {o : Option ℕ},
      (x, a, o) ∈ l1.zip (l2.zip (l1.map f)) → x ∈ l1 ∧ o = f x := by
  intro l1
  induction l1 with
  | nil =>
    intro l2 x a o h
    simp at h
  | cons c t ih =>
    intro l2 x a o h
    cases l2 with
    | nil => simp at h
    | cons d t2 =>
      simp only [List.map_cons, List.zip_cons_cons] at h
      rcases List.mem_cons.mp h with heq | ht
      · have hx1 : x = c := congrArg Prod.fst heq
        have ho : o = f c := congrArg (fun p => p.2.2) heq
        subst hx1
        exact ⟨List.mem_cons_self _ _, by rw [ho]⟩
      · exact ⟨List.mem_cons_of_mem _ (ih ht).1, (ih ht).2⟩

/-! ## Claim C7 -/

/-- C7 (counterexample): with `n_bins = 1` and scores `[1, 2]` the
segmentation is valid and has a single realized segment, so segment `k - 1`
is segment `0` itself: both rows land in segment `0`, whose minimum score
`1` is strictly below its maximum score `2` — the claimed inequality
"minimum of segment 0 ≥ maximum of segment k - 1" fails as stated for
`k = 1`. -/
theorem c7_single_segment_counterexample :
    rowsOf [1, 2] [0, 0] 1 = [(1, 0, some 0), (2, 0, some 0)] ∧
    (binStatsOf [1, 2] [0, 0] 1).length = 1 ∧
    (1 : ℚ) < 2 := by
  have h1 : List.range 2 = [0, 1] := rfl
  have h0 : List.range 1 = [0] := rfl
  refine ⟨?_, ?_, by norm_num⟩
  · norm_num [rowsOf, rowLabels, reorient, maxOfSomes, qcutLabels, qcutLabel, searchIds,
      binEdges, rawEdges, probs, h1, h0, sortedScores, List.insertionSort,
      List.orderedInsert, quantile, List.getD, List.getElem?_cons_zero,
      List.getElem?_cons_succ, List.getElem?_nil, Option.getD_some, Option.getD_none,
      pdUnique, pdUniqueAux, List.countP, List.countP.go, List.headD, List.head?,
      List.zip, List.zipWith]
  · norm_num [binStatsOf, groupRows, groupKeys, segRows, rowsOf, rowLabel, rowLabels,
      reorient, maxOfSomes, qcutLabels, qcutLabel, searchIds, binEdges, rawEdges, probs,
      h1, h0, sortedScores, List.insertionSort, List.orderedInsert, quantile, List.getD,
      List.getElem?_cons_zero, List.getElem?_cons_succ, List.getElem?_nil,
      Option.getD_some, Option.getD_none, pdUnique, pdUniqueAux, List.countP,
      List.countP.go, List.headD, List.head?, List.zip, List.zipWith, List.filterMap,
      List.foldl]

/-- C7 (amended): the reoriented `bin` column is `segLabel` applied to each
score, and whenever two scores land in segments `k1 < k2`, the score in the
lower-indexed (better) segment is at least the other: segment 0 contains
the highest scores, and for two or more realized segments the minimum score
of segment 0 is ≥ the maximum score of the last segment.  (For a single
realized segment, segment `k - 1` is segment `0` and the claimed inequality
fails, see the counterexample.) -/
theorem c7_lower_segment_higher_scores :
    (∀ (scores : List ℚ) (n_bins : ℕ),
      rowLabels scores n_bins = scores.map (segLabel scores n_bins)) ∧
    (∀ (scores : List ℚ) (n_bins : ℕ) (x1 x2 : ℚ) (k1 k2 : ℕ),
      x1 ∈ scores → x2 ∈ scores →
      segLabel scores n_bins x1 = some k1 →
      segLabel scores n_bins x2 = some k2 →
      k1 < k2 → x2 ≤ x1) := by
  refine ⟨rowLabels_eq_map_segLabel, ?_⟩
  intro scores n x1 x2 k1 k2 hx1 hx2 h1 h2 hk
  unfold segLabel at h1 h2
  rcases hm : maxOfSomes (qcutLabels scores n) with _ | M
  · rw [hm] at h1
    cases h1
  · rw [hm] at h1 h2
    rcases hq1 : qcutLabel scores n x1 with _ | b1
    · rw [hq1] at h1
      cases h1
    rcases hq2 : qcutLabel scores n x2 with _ | b2
    · rw [hq2] at h2
      cases h2
    rw [hq1] at h1
    rw [hq2] at h2
    have hk1 : M - b1 = k1 := by simpa using h1
    have hk2 : M - b2 = k2 := by simpa using h2
    have hb1M : b1 ≤ M :=
      le_maxOfSomes (List.mem_map.mpr ⟨x1, hx1, hq1⟩) hm
    have hb2M : b2 ≤ M :=
      le_maxOfSomes (List.mem_map.mpr ⟨x2, hx2, hq2⟩) hm
    by_contra hle
    push_neg at hle
    have hmono : b1 ≤ b2 := qcutLabel_mono hx1 (le_of_lt hle) hq1 hq2
    omega

/-- Witness for the second part of `c7_lower_segment_higher_scores`: with
scores `[1, 2]` and 2 bins, the score 2 lands in segment 0 and the score 1
in segment 1, and the theorem yields `1 ≤ 2`. -/
theorem c7_lower_segment_higher_scores_witness : (1 : ℚ) ≤ 2 := by
  have h1 : List.range 2 = [0, 1] := rfl
  have h3 : List.range 3 = [0, 1, 2] := rfl
  have hs2 : segLabel [1, 2] 2 2 = some 0 := by
    norm_num [segLabel, maxOfSomes, qcutLabels, qcutLabel, searchIds, binEdges, rawEdges,
      probs, h1, h3, sortedScores, List.insertionSort, List.orderedInsert, quantile,
      intToNat_two, List.getD, List.getElem?_cons_zero, List.getElem?_cons_succ,
      List.getElem?_nil, Option.getD_some, Option.getD_none, pdUnique, pdUniqueAux,
      List.countP, List.countP.go, List.headD, List.head?]
  have hs1 : segLabel [1, 2] 2 1 = some 1 := by
    norm_num [segLabel, maxOfSomes, qcutLabels, qcutLabel, searchIds, binEdges, rawEdges,
      probs, h1, h3, sortedScores, List.insertionSort, List.orderedInsert, quantile,
      intToNat_two, List.getD, List.getElem?_cons_zero, List.getElem?_cons_succ,
      List.getElem?_nil, Option.getD_some, Option.getD_none, pdUnique, pdUniqueAux,
      List.countP, List.countP.go, List.headD, List.head?]
  exact c7_lower_segment_higher_scores.2 [1, 2] 2 2 1 0 1
    (by simp) (by simp) hs2 hs1 (by decide)

/-! ## Lemmas for n_bins = 1 -/

theorem probs_one : probs 1 = [0, 1] := by
  have h : List.range 2 = [0, 1] := rfl
  norm_num [probs, h]

theorem rawEdges_one (scores : List ℚ) :
    rawEdges scores 1 =
      [quantile (sortedScores scores) 0, quantile (sortedScores scores) 1] := by
  unfold rawEdges
  rw [probs_one]
  rfl

theorem binEdges_one (scores : List ℚ) : binEdges scores 1 = rawEdges scores 1 := by
  unfold binEdges
  rw [if_neg]
  rintro ⟨-, hB⟩
  apply hB
  rw [rawEdges_one]
  rfl

theorem quantile_one {s : List ℚ} (hs : s ≠ []) :
    quantile s 1 = s.getD (s.length - 1) 0 := by
  unfold quantile
  have hpos : 1 ≤ s.length := List.length_pos.mpr hs
  have hcast : (1 : ℚ) * ((s.length : ℚ) - 1) = ((s.length - 1 : ℕ) : ℚ) := by
    rw [Nat.cast_sub hpos]
    push_cast
    ring
  rw [hcast, Int.floor_natCast, Int.toNat_ofNat]
  simp

theorem qcutLabel_one {scores : List ℚ} {x : ℚ} (hx : x ∈ scores) :
    qcutLabel scores 1 x = some 0 := by
  have hsne : sortedScores scores ≠ [] := by
    intro h0
    have := mem_sortedScores.mpr hx
    rw [h0] at this
    cases this
  have hq0 : quantile (sortedScores scores) 0 = (sortedScores scores).getD 0 0 :=
    quantile_zero (sortedScores scores)
  have hq1 : quantile (sortedScores scores) 1 =
      (sortedScores scores).getD ((sortedScores scores).length - 1) 0 :=
    quantile_one hsne
  have hbe : binEdges scores 1 = [(sortedScores scores).getD 0 0,
      (sortedScores scores).getD ((sortedScores scores).length - 1) 0] := by
    rw [binEdges_one, rawEdges_one, hq0, hq1]
  have hmn : (sortedScores scores).getD 0 0 ≤ x :=
    sorted_head_le (sortedScores_sorted scores) (mem_sortedScores.mpr hx)
  have hmx : x ≤ (sortedScores scores).getD ((sortedScores scores).length - 1) 0 :=
    sorted_le_last (sortedScores_sorted scores) (mem_sortedScores.mpr hx)
  unfold qcutLabel searchIds
  rw [hbe]
  by_cases hxh : x = ([(sortedScores scores).getD 0 0,
      (sortedScores scores).getD ((sortedScores scores).length - 1) 0] : List ℚ).headD 0
  · rw [if_pos hxh]
    norm_num
  · rw [if_neg hxh]
    have hne2 : (sortedScores scores).getD 0 0 ≠ x := by
      intro heq
      exact hxh (by simpa using heq.symm)
    have h1 : (sortedScores scores).getD 0 0 < x := lt_of_le_of_ne hmn hne2
    have h2 : ¬ ((sortedScores scores).getD ((sortedScores scores).length - 1) 0 < x) :=
      not_lt.mpr hmx
    have hc : List.countP (fun e => decide (e < x))
        [(sortedScores scores).getD 0 0,
         (sortedScores scores).getD ((sortedScores scores).length - 1) 0] = 1 := by
      rw [List.countP_cons, List.countP_cons, List.countP_nil]
      simp only [decide_eq_true_eq]
      rw [if_neg h2, if_pos h1]
    rw [hc]
    norm_num

theorem qcutLabels_one {scores : List ℚ} :
    qcutLabels scores 1 = scores.map (fun _ => some 0) := by
  unfold qcutLabels
  apply List.map_congr_left
  intro x hx
  exact qcutLabel_one hx

theorem maxOfSomes_const_zero {l : List ℚ} (h : l ≠ []) :
    maxOfSomes (l.map (fun _ => some 0)) = some 0 := by
  induction l with
  | nil => exact absurd rfl h
  | cons a t ih =>
    cases t with
    | nil => rfl
    | cons b t2 =>
      have hih := ih (List.cons_ne_nil b t2)
      simp only [List.map_cons] at hih ⊢
      unfold maxOfSomes
      rw [hih]
      simp

theorem rowLabels_one {scores : List ℚ} (hne : scores ≠ []) :
    rowLabels scores 1 = scores.map (fun _ => some 0) := by
  rw [rowLabels_eq_map_segLabel]
  apply List.map_congr_left
  intro x hx
  unfold segLabel
  rw [qcutLabels_one, maxOfSomes_const_zero hne, qcutLabel_one hx]
  rfl

theorem filterMap_rowLabel_zip_const :
    ∀ (s t : List ℚ), s.length = t.length →
      ((s.zip (t.zip (s.map (fun _ => some (0 : ℕ))))).filterMap rowLabel) =
        List.replicate s.length 0 := by
  intro s
  induction s with
  | nil => intro t hlen; rfl
  | cons c cs ih =>
    intro t hlen
    cases t with
    | nil => cases hlen
    | cons d ds =>
      simp only [List.map_cons, List.zip_cons_cons, List.filterMap_cons]
      rw [ih ds (by simpa using hlen)]
      rfl

theorem foldl_max_replicate_zero (n : ℕ) : (List.replicate n 0).foldl max 0 = 0 := by
  induction n with
  | zero => rfl
  | succ m ih =>
    rw [List.replicate_succ, List.foldl_cons]
    simpa using ih

theorem groupKeys_one {s t : List ℚ} (hlen : s.length = t.length) (hne : s ≠ []) :
    groupKeys (rowsOf s t 1) = [0] := by
  unfold groupKeys
  have hfm : (rowsOf s t 1).filterMap rowLabel = List.replicate s.length 0 := by
    unfold rowsOf
    rw [rowLabels_one hne]
    exact filterMap_rowLabel_zip_const s t hlen
  rw [hfm, foldl_max_replicate_zero]
  cases s with
  | nil => exact absurd rfl hne
  | cons c cs =>
    have hrep : List.replicate (c :: cs).length 0 = 0 :: List.replicate cs.length 0 := rfl
    rw [hrep]
    rfl

/-! ## Claim C9 -/

/-- C9: whenever the realized segment count is 1, the violation list is
empty and both scores take their perfect value (`rankfit_v = 1`,
`rankfit_t = 1`); and every call with `n_bins = 1` on a nonempty input of
matching lengths realizes exactly one segment. -/
theorem c9_single_segment_perfect :
    (∀ (y_scores y_true : List ℚ) (n_bins : ℕ),
      (binStatsOf y_scores y_true n_bins).length = 1 →
      detectViolations (eventRatesOf y_scores y_true n_bins) = [] ∧
      calculate_rankfit_v (eventRatesOf y_scores y_true n_bins)
        (detectViolations (eventRatesOf y_scores y_true n_bins)) = 1 ∧
      calculate_metrics_rankfit_t y_scores y_true n_bins = some 1) ∧
    (∀ (y_scores y_true : List ℚ), y_scores.length = y_true.length →
      y_scores ≠ [] → (binStatsOf y_scores y_true 1).length = 1) := by
  constructor
  · intro y_scores y_true n_bins h1
    have hrl : (eventRatesOf y_scores y_true n_bins).length = 1 := by
      unfold eventRatesOf
      rw [List.length_map]
      exact h1
    have hdv : detectViolations (eventRatesOf y_scores y_true n_bins) = [] := by
      unfold detectViolations
      rw [hrl]
      rfl
    refine ⟨hdv, ?_, ?_⟩
    · unfold calculate_rankfit_v
      rw [if_pos (by omega)]
    · unfold calculate_metrics_rankfit_t calculate_rankfit_t
      rw [if_pos (by omega)]
  · intro y_scores y_true hlen hne
    unfold binStatsOf groupRows
    rw [List.length_map, groupKeys_one hlen hne]
    rfl

/-- Witness for `c9_single_segment_perfect` at the concrete input
`[1, 2]` / `[0, 0]` with `n_bins = 1`. -/
theorem c9_single_segment_perfect_witness :
    (binStatsOf [1, 2] [0, 0] 1).length = 1 ∧
    detectViolations (eventRatesOf [1, 2] [0, 0] 1) = [] ∧
    calculate_rankfit_v (eventRatesOf [1, 2] [0, 0] 1)
      (detectViolations (eventRatesOf [1, 2] [0, 0] 1)) = 1 ∧
    calculate_metrics_rankfit_t [1, 2] [0, 0] 1 = some 1 := by
  have hk : (binStatsOf [1, 2] [0, 0] 1).length = 1 :=
    c9_single_segment_perfect.2 [1, 2] [0, 0] rfl (by simp)
  obtain ⟨h1, h2, h3⟩ := c9_single_segment_perfect.1 [1, 2] [0, 0] 1 hk
  exact ⟨hk, h1, h2, h3⟩
